import Mathlib

/-!
# Verification of the PyFDD fitting core

Shallow embedding of the parameter-driven optimization engine of PyFDD:

* `fits` — the cost-function evaluators, parameter-vector reconstruction,
  optimizer writeback and Hessian-based error estimation of
  `src/PyFDD/fits.py` (class `fits`);
* `FitManager` — the multi-site combinatorial orchestration layer of
  `src/pyfdd/core/fitmanager.py` (class `FitManager`).

Numeric values are modelled by `ℚ`.  External collaborators (the pattern
generator `PatternCreator.make_pattern`, `numdifftools.Hessian`,
`numpy.linalg.inv`, `np.log`, `np.sqrt`) are passed in as explicit
function arguments or modelled from their documented semantics where the
source of this repository does not contain them.
-/

namespace fits

/-- The canonical parameter keys of `fits._parameters_order`
(`fits.py:52`): `('dx','dy','phi','total_cts','sigma','f_p1','f_p2','f_p3')`. -/
inductive Key where
  | dx | dy | phi | total_cts | sigma | f_p1 | f_p2 | f_p3
deriving DecidableEq, Repr

/-- One entry of `fits.parameters_dict` (`fits.py:62-63`); the fields the
claims use: initial value `p0`, fitted `value`, free flag `use`, `scale`. -/
structure Param where
  p0 : ℚ
  value : ℚ
  use : Bool
  scale : ℚ
deriving DecidableEq, Repr

/-- The state of a `fits` object relevant to the evaluators: the parameter
dictionary restricted to the eight canonical keys, plus the `use` flags of
`pattern_1`, `pattern_2`, `pattern_3` (`fits.py:67-80`). -/
structure FitState where
  params : Key → Param
  pattern1_use : Bool
  pattern2_use : Bool
  pattern3_use : Bool

/-- Embedding of `fits._parameters_order` (`fits.py:52`). -/
def order : List Key :=
  [Key.dx, Key.dy, Key.phi, Key.total_cts, Key.sigma, Key.f_p1, Key.f_p2, Key.f_p3]

/-- The keys whose `'use'` flag is set: the free parameters. -/
def freeKeys (st : FitState) : List Key :=
  order.filter (fun k => (st.params k).use)

/-- Number of free parameters: the length of the reduced vector. -/
def numFree (st : FitState) : ℕ :=
  (freeKeys st).length

/-- Embedding of `fits._get_p0_scale` (`fits.py:165-171`): scales of the free
parameters, in canonical order. -/
def get_p0_scale (st : FitState) : List ℚ :=
  (freeKeys st).map (fun k => (st.params k).scale)

/-- Embedding of `fits._get_p0` (`fits.py:173-180`): reduced initial vector, each free
parameter's `p0` divided by its scale, in canonical order. -/
def get_p0 (st : FitState) : List ℚ :=
  (freeKeys st).map (fun k => (st.params k).p0 / (st.params k).scale)

/-- One invocation of the external pattern generator
`gen.make_pattern(dx, dy, phi, fractions, total_events, sigma=sigma, type='ideal')`
(`fits.py:301` and `fits.py:408`), recorded argument by argument. -/
structure GenCall where
  dx : ℚ
  dy : ℚ
  phi : ℚ
  fractions : List ℚ
  total_events : ℚ
  sigma : ℚ
deriving DecidableEq, Repr

/-- The reconstruction loop shared by `fits.chi_square_call`
(`fits.py:328-335`) and `fits.log_likelihood_call` (`fits.py:435-442`):
walk the canonical order; a free key consumes the next entry of the
reduced vector `v` and of the scale vector `ps` (index `di` advances on
both in lockstep), a fixed key contributes its `p0`. -/
def reconstruct (st : FitState) : List Key → List ℚ → List ℚ → List ℚ
  | [], _, _ => []
  | k :: ks, v, ps =>
    if (st.params k).use then
      (v.headD 0 * ps.headD 1) :: reconstruct st ks v.tail ps.tail
    else
      (st.params k).p0 :: reconstruct st ks v ps

/-- The full `params_temp` tuple of `chi_square_call` / `log_likelihood_call`:
`p0_scale = self._get_p0_scale() if enable_scale else np.ones(len(params))`
(`fits.py:326`, `fits.py:433`) followed by the reconstruction loop. -/
def call_params (st : FitState) (v : List ℚ) (enable_scale : Bool) : List ℚ :=
  reconstruct st order v (if enable_scale then get_p0_scale st else List.replicate v.length 1)

/-- The `fractions_sims` assembly (`fits.py:339-342`, `fits.py:446-449`): the
reconstructed `f_p1, f_p2, f_p3` entries gated by the `pattern_i` use flags. -/
def active_fractions (st : FitState) (pt : List ℚ) : List ℚ :=
  (if st.pattern1_use then [pt.getD 5 0] else []) ++
  (if st.pattern2_use then [pt.getD 6 0] else []) ++
  (if st.pattern3_use then [pt.getD 7 0] else [])

/-- The fractions vector handed to the generator
(`fits.py:296-300`, `fits.py:402-407`):
`rnd_events = [1 - fractions_sims.sum()]` concatenated before the site
fractions — element 0 is the implied random-background fraction. -/
def make_fractions (fractions_sims : List ℚ) : List ℚ :=
  (1 - fractions_sims.sum) :: fractions_sims

/-- The Pearson sum `np.sum((data_pattern - sim_pattern) ** 2 / np.abs(sim_pattern))`
(`fits.py:304`) over a masked array: cells where the shared mask is invalid
contribute nothing.  `valid` holds `true` for unmasked cells. -/
def chi2Score : List ℚ → List ℚ → List Bool → ℚ
  | d :: ds, s :: ss, b :: bs =>
    (if b then (d - s) ^ 2 / |s| else 0) + chi2Score ds ss bs
  | _, _, _ => 0

/-- The log-likelihood sum `np.sum(data_pattern * np.log(sim_pattern))`
(`fits.py:411`) over a masked array, with the transcendental `np.log`
abstracted as `logQ`. -/
def llScore (logQ : ℚ → ℚ) : List ℚ → List ℚ → List Bool → ℚ
  | d :: ds, s :: ss, b :: bs =>
    (if b then d * logQ s else 0) + llScore logQ ds ss bs
  | _, _, _ => 0

/-- Embedding of `fits.chi_square` (`fits.py:282-321`): build the fractions vector,
invoke the generator, and score.  The generator is the external
collaborator `gen`; the `GenCall` actually issued is returned alongside
the score so that theorems can speak about the invocation. -/
def chi_square (gen : GenCall → List ℚ) (data : List ℚ) (valid : List Bool)
    (dx dy phi total_events : ℚ) (fractions_sims : List ℚ) (sigma : ℚ) :
    GenCall × ℚ :=
  let fractions := make_fractions fractions_sims
  let call : GenCall := ⟨dx, dy, phi, fractions, total_events, sigma⟩
  let sim_pattern := gen call
  (call, chi2Score data sim_pattern valid)

/-- Embedding of `fits.log_likelihood` (`fits.py:386-428`): `total_events = 1` is set in
the body (`fits.py:401`), the generator is invoked, and the returned score
is the negated likelihood sum (`fits.py:411`, `fits.py:428`). -/
def log_likelihood (logQ : ℚ → ℚ) (gen : GenCall → List ℚ) (data : List ℚ)
    (valid : List Bool) (dx dy phi : ℚ) (fractions_sims : List ℚ) (sigma : ℚ) :
    GenCall × ℚ :=
  let total_events : ℚ := 1
  let fractions := make_fractions fractions_sims
  let call : GenCall := ⟨dx, dy, phi, fractions, total_events, sigma⟩
  let sim_pattern := gen call
  (call, -(llScore logQ data sim_pattern valid))

/-- Embedding of `fits.chi_square_call` (`fits.py:323-344`): reconstruct the full tuple,
split out the active site fractions, and delegate to `chi_square`. -/
def chi_square_call (gen : GenCall → List ℚ) (data : List ℚ) (valid : List Bool)
    (st : FitState) (params : List ℚ) (enable_scale : Bool) : GenCall × ℚ :=
  let pt := call_params st params enable_scale
  chi_square gen data valid (pt.getD 0 0) (pt.getD 1 0) (pt.getD 2 0)
    (pt.getD 3 0) (active_fractions st pt) (pt.getD 4 0)

/-- Embedding of `fits.log_likelihood_call` (`fits.py:430-451`): same reconstruction,
delegating to `log_likelihood` (which ignores `total_cts`). -/
def log_likelihood_call (logQ : ℚ → ℚ) (gen : GenCall → List ℚ) (data : List ℚ)
    (valid : List Bool) (st : FitState) (params : List ℚ) (enable_scale : Bool) :
    GenCall × ℚ :=
  let pt := call_params st params enable_scale
  log_likelihood logQ gen data valid (pt.getD 0 0) (pt.getD 1 0) (pt.getD 2 0)
    (active_fractions st pt) (pt.getD 4 0)

/-- Update the `value` field of one key of the parameter dictionary. -/
def updValue (p : Key → Param) (k : Key) (v : ℚ) : Key → Param :=
  fun q => if q = k then { p k with value := v } else p q

/-- The writeback loop at the end of `fits.minimize_chi2` (`fits.py:374-382`)
and `fits.maximize_likelyhood` (`fits.py:484-491`): a free key consumes the
next optimizer coordinate, multiplies it by its scale and stores it as
`value`; a fixed key stores its `p0`. -/
def writeback (p : Key → Param) : List Key → List ℚ → Key → Param
  | [], _ => p
  | k :: ks, x =>
    if (p k).use then
      writeback (updValue p k (x.headD 0 * (p k).scale)) ks x.tail
    else
      writeback (updValue p k (p k).p0) ks x

/-- The registry update performed by `fits.minimize_chi2` once the
optimizer returns `res['x'] = x` (`fits.py:374-382`). -/
def minimize_chi2_writeback (st : FitState) (x : List ℚ) : FitState :=
  { st with params := writeback st.params order x }

/-- Force a key's free flag (e.g. `self.parameters_dict['total_cts']['use'] = False`,
`fits.py:456`). -/
def setUse (st : FitState) (k : Key) (b : Bool) : FitState :=
  { st with params := fun q => if q = k then { st.params k with use := b } else st.params q }

/-- The prefix of `fits.maximize_likelyhood` (`fits.py:453-459`): force
`total_cts` non-free, then build the reduced initial vector. -/
def maximize_likelyhood_setup (st : FitState) : FitState × List ℚ :=
  let st1 := setUse st Key.total_cts false
  (st1, get_p0 st1)

/-- The registry update performed by `fits.maximize_likelyhood`
(`fits.py:456`, `fits.py:484-491`): `total_cts` was forced non-free before
the minimization, so the writeback loop runs on that state. -/
def maximize_likelyhood_writeback (st : FitState) (x : List ℚ) : FitState :=
  let st1 := setUse st Key.total_cts false
  { st1 with params := writeback st1.params order x }

end fits

namespace fits

/-! ### Error estimation (`fits.get_variance_from_hessian`, `fits.py:496-521`) -/

/-- Modelled from the spec: `numpy.linalg.inv` is an external collaborator;
it returns the inverse when the matrix is invertible and fails with a
`LinAlgError` ("Singular matrix") otherwise — "Fails with a SingularHessian
error if inversion is not possible".  For an invertible rational matrix the
inverse is `det⁻¹ • adjugate`. -/
def npInv {m : ℕ} (M : Matrix (Fin m) (Fin m) ℚ) :
    Except String (Matrix (Fin m) (Fin m) ℚ) :=
  if M.det = 0 then Except.error "LinAlgError: Singular matrix"
  else Except.ok ((M.det)⁻¹ • M.adjugate)

/-- Embedding of `fits.get_variance_from_hessian` (`fits.py:496-521`).  The numeric
Hessian operator (`numdifftools.Hessian` applied to the chosen cost
callable) is the external collaborator `hess`; `np.sqrt` is abstracted as
`sqrtQ`; `scale` is the reduced scale vector `self._get_p0_scale()`.
The entry point divides `x` by the scales when scaling is enabled
(`fits.py:498`), selects which matrix to invert by `func`
(`fits.py:507-512`), takes the square roots of the diagonal
(`fits.py:513`) and rescales (`fits.py:514`). -/
def get_variance_from_hessian {m : ℕ} (sqrtQ : ℚ → ℚ)
    (hess : (Fin m → ℚ) → Matrix (Fin m) (Fin m) ℚ)
    (scale : Fin m → ℚ) (enable_scale : Bool) (func : String)
    (x0 : Fin m → ℚ) : Except String (Fin m → ℚ) :=
  let x := if enable_scale then fun i => x0 i / scale i else x0
  if func = "likelihood" ∨ func = "chi_square" then
    let hh := hess x
    let target := if func = "likelihood" then hh else (1 / 2 : ℚ) • hh
    match npInv target with
    | Except.error e => Except.error e
    | Except.ok hh_inv =>
      Except.ok (fun i => sqrtQ (hh_inv i i) * (if enable_scale then scale i else 1))
  else
    Except.error "undefined function, should be likelihood or chi_square"

end fits

namespace FitManager

/-! ### Multi-site orchestration (`src/pyfdd/core/fitmanager.py`) -/

/-- A Python exception escaping one combination's fit. -/
inductive PyErr where
  | valueError
  | assertionError
  | other (msg : String)
deriving DecidableEq, Repr

/-- The orchestrator state the claims are about (`FitManager.__init__`,
`fitmanager.py:78-83`): the running minimum, the retained best/last fit
(kept here as the pair of its site selection and its cost value
`results['fun']`), the transient current-fit handle, and the rows appended
to the result tables by `_fill_horizontal_results_dict` /
`_fill_vertical_results_dict` (one row per completed combination). -/
structure FMState where
  min_value : Option ℚ
  best_fit : Option (List ℤ × ℚ)
  last_fit : Option (List ℤ × ℚ)
  current_fit_obj : Option (List ℤ)
  processed : List (List ℤ × ℚ)
deriving DecidableEq, Repr

/-- The freshly constructed orchestrator state. -/
def initState : FMState :=
  ⟨none, none, none, none, []⟩

/-- Embedding of `FitManager._single_fit` (`fitmanager.py:607-661`).  Building the `Fit`
object, minimizing and (optionally) computing errors are delegated to the
external collaborator `outcome`, which returns the cost value
`results['fun']` for the site selection or the exception it raised.
The site-count check (`fitmanager.py:620-624`) raises `ValueError` before
the current-fit handle is set (`fitmanager.py:631`); an exception from the
minimization escapes after the handle is set; on success the result rows
are appended (`fitmanager.py:647-648`), best is updated on strict
improvement (`fitmanager.py:650-656`), last is always updated
(`fitmanager.py:658`) and the handle is reset (`fitmanager.py:661`). -/
def single_fit (n_sites : ℕ) (outcome : List ℤ → Except PyErr ℚ)
    (sites : List ℤ) (st : FMState) : FMState × Option PyErr :=
  if sites.length ≠ n_sites then (st, some PyErr.valueError)
  else
    let st1 := { st with current_fit_obj := some sites }
    match outcome sites with
    | Except.error e => (st1, some e)
    | Except.ok cost =>
      let st2 := { st1 with processed := st1.processed ++ [(sites, cost)] }
      let st3 :=
        match st2.min_value with
        | none => { st2 with best_fit := some (sites, cost), min_value := some cost }
        | some m =>
          if cost < m then
            { st2 with best_fit := some (sites, cost), min_value := some cost }
          else st2
      let st4 := { st3 with last_fit := some (sites, cost) }
      ({ st4 with current_fit_obj := none }, none)

/-- The enumeration of `recursive_call` inside `FitManager.run_fits`
(`fitmanager.py:565-573`): depth-first over the per-slot candidate lists,
first slot outermost, preserving input order.  The source calls
`_single_fit` at each leaf; here the leaves are collected in visit order
and processed sequentially by `sweep`, which preserves both the order and
the abort-on-exception semantics of the in-place calls. -/
def recursive_call (patterns_list : List (List ℤ)) (sites : List ℤ) : List (List ℤ) :=
  match patterns_list with
  | [] => [sites]
  | l :: rest => l.flatMap (fun s => recursive_call rest (sites ++ [s]))

/-- Sequential processing of the visited site selections: each one goes
through `_single_fit`; the first exception stops the enumeration and
propagates (Python unwinds the recursion of `recursive_call`). -/
def sweep (n_sites : ℕ) (outcome : List ℤ → Except PyErr ℚ) :
    List (List ℤ) → FMState → FMState × Option PyErr
  | [], st => (st, none)
  | c :: rest, st =>
    match single_fit n_sites outcome c st with
    | (st1, some e) => (st1, some e)
    | (st1, none) => sweep n_sites outcome rest st1

/-- The outcome of a `run_fits` / `run_single_fit` call: the final
orchestrator state, the exception propagated to the caller (if any), and
whether an out-of-range warning was emitted. -/
structure RunOutput where
  state : FMState
  err : Option PyErr
  warned : Bool
deriving DecidableEq, Repr

/-- Embedding of `FitManager.run_fits` (`fitmanager.py:542-578`).  The range check
(`is_datapattern_inrange`, an external computation here abstracted by the
Boolean `inrange`) warns *and raises `ValueError`* when it fails
(`fitmanager.py:551-554`); `assert len(patterns_list) >= 1`
(`fitmanager.py:563`); then `recursive_call` runs inside a bare
`try/except` whose handler resets the current-fit handle and swallows the
exception (`fitmanager.py:574-578`). -/
def run_fits (n_sites : ℕ) (outcome : List ℤ → Except PyErr ℚ)
    (inrange : Bool) (args : List (List ℤ)) (st : FMState) : RunOutput :=
  if inrange = false then ⟨st, some PyErr.valueError, true⟩
  else if args.length < 1 then ⟨st, some PyErr.assertionError, false⟩
  else
    match sweep n_sites outcome (recursive_call args []) st with
    | (st1, some _) => ⟨{ st1 with current_fit_obj := none }, none, false⟩
    | (st1, none) => ⟨st1, none, false⟩

/-- Embedding of `FitManager.run_single_fit` (`fitmanager.py:580-605`).  The range check
only warns (`fitmanager.py:583-585`); `_single_fit` runs inside a
`try/except` that resets the current-fit handle and swallows the
exception (`fitmanager.py:600-605`). -/
def run_single_fit (n_sites : ℕ) (outcome : List ℤ → Except PyErr ℚ)
    (inrange : Bool) (sites : List ℤ) (st : FMState) : RunOutput :=
  let warned := !inrange
  match single_fit n_sites outcome sites st with
  | (st1, some _) => ⟨{ st1 with current_fit_obj := none }, none, warned⟩
  | (st1, none) => ⟨st1, none, warned⟩

end FitManager

namespace FitManager

/-! ### Initial-value seeding (`FitManager._get_initial_values`,
`fitmanager.py:322-353`, and `compute_initial_fit_values`,
`fitmanager.py:871-932`) -/

/-- Parameter keys of the orchestrator (`compute_parameter_keys`,
`fitmanager.py:859-869`): `dx, dy, phi, total_cts, sigma, f_p1, ..., f_pn`. -/
inductive PKey where
  | dx | dy | phi | total_cts | sigma
  | f_p (i : ℕ)
deriving DecidableEq, Repr

/-- Embedding of `FitManager.compute_parameter_keys` (`fitmanager.py:859-869`). -/
def compute_parameter_keys (n_sites : ℕ) : List PKey :=
  [PKey.dx, PKey.dy, PKey.phi, PKey.total_cts, PKey.sigma] ++
    (List.range n_sites).map (fun i => PKey.f_p (i + 1))

/-- The fields of the external `DataPattern` read when choosing defaults:
detected center, detected angle, and total counts of the pattern matrix. -/
structure DPattern where
  centerX : ℚ
  centerY : ℚ
  angle : ℚ
  totalCounts : ℚ

/-- Embedding of `FitManager.compute_initial_fit_values` (`fitmanager.py:871-932`):
user-fixed values first (fixed), then user initial values (free), then the
defaults — orientation from the pattern, counts from the pattern total
(fixed by default), `sigma = 0.1` (fixed by default), fractions
`min(0.15, 0.5 / n_sites)` (free). -/
def compute_initial_fit_values (n_sites : ℕ) (dp : DPattern)
    (p_fixed_values p_initial_values : PKey → Option ℚ) : List ℚ × List Bool :=
  let pick : PKey → ℚ × Bool := fun key =>
    match p_fixed_values key with
    | some v => (v, true)
    | none =>
      match p_initial_values key with
      | some v => (v, false)
      | none =>
        match key with
        | PKey.dx => (dp.centerX, false)
        | PKey.dy => (dp.centerY, false)
        | PKey.phi => (dp.angle, false)
        | PKey.total_cts => (dp.totalCounts, true)
        | PKey.sigma => (1 / 10, true)
        | PKey.f_p _ => (min (15 / 100) ((1 / 2) / (n_sites : ℚ)), false)
  let picks := (compute_parameter_keys n_sites).map pick
  (picks.map Prod.fst, picks.map Prod.snd)

/-- The result of the previous fit as read by the seeding code: the
`success` flag and the optimized vector `results['x']`.  Modelled from the
spec for the missing `pyfdd/core/fit.py`: the reduced vector holds exactly
one (physical-units) coordinate per parameter that was free in that fit. -/
structure LastFit where
  success : Bool
  x : List ℚ
deriving DecidableEq, Repr

/-- The offset `1e-5` added to seeded values (`fitmanager.py:344`). -/
def seedOffset : ℚ := 1 / 100000

/-- The seeding loop of `_get_initial_values` (`fitmanager.py:339-345`):
keys present in `p_fixed_values` are skipped; every other key reads
`p0_last[p0_last_i]` — `none` models the `IndexError` Python raises when
`p0_last_i` runs past the end of the previous result vector — and the
index advances. -/
def seedLoop (p_fixed_values : PKey → Option ℚ) (p0_last : List ℚ) :
    List PKey → ℕ → (PKey → Option ℚ) → Option (PKey → Option ℚ)
  | [], _, acc => some acc
  | k :: ks, i, acc =>
    if (p_fixed_values k).isSome then
      seedLoop p_fixed_values p0_last ks i acc
    else
      match p0_last.get? i with
      | none => none
      | some v =>
        seedLoop p_fixed_values p0_last ks (i + 1)
          (fun q => if q = k then some (v + seedOffset) else acc q)

/-- Embedding of `FitManager._get_initial_values` (`fitmanager.py:322-353`): seed from
the previous fit only when `pass_results` is set, a previous fit exists
and it reported success; then delegate to `compute_initial_fit_values`.
`none` models an uncaught `IndexError` in the seeding loop. -/
def get_initial_values (n_sites : ℕ) (dp : DPattern)
    (p_fixed_values p_initial_values : PKey → Option ℚ)
    (last_fit : Option LastFit) (pass_results : Bool) :
    Option (List ℚ × List Bool) :=
  let p0_pass := pass_results && (match last_fit with
    | some lf => lf.success
    | none => false)
  if p0_pass then
    match last_fit with
    | none => none
    | some lf =>
      match seedLoop p_fixed_values lf.x (compute_parameter_keys n_sites) 0
          p_initial_values with
      | none => none
      | some new_initial_values =>
        some (compute_initial_fit_values n_sites dp p_fixed_values new_initial_values)
  else
    some (compute_initial_fit_values n_sites dp p_fixed_values p_initial_values)

end FitManager

namespace SpecList

/-! ### Generic list lemmas used by the positional characterizations -/

lemma headD_eq_getD {α : Type} (l : List α) (d : α) : l.headD d = l.getD 0 d := by
  cases l <;> rfl

lemma tail_getD {α : Type} (l : List α) (j : ℕ) (d : α) :
    l.tail.getD j d = l.getD (j + 1) d := by
  cases l <;> rfl

lemma getD_map_of_lt {α β : Type} (f : α → β) (l : List α) (r : ℕ) (d : α) (d2 : β)
    (h : r < l.length) : (l.map f).getD r d2 = f (l.getD r d) := by
  induction l generalizing r with
  | nil => simp at h
  | cons a l ih =>
    cases r with
    | zero => rfl
    | succ r => simpa using ih r (by simpa using h)

lemma replicate_getD_self {α : Type} (n j : ℕ) (x : α) :
    (List.replicate n x).getD j x = x := by
  induction n generalizing j with
  | zero => rfl
  | succ n ih => cases j <;> simp [List.replicate, ih, List.getD]

lemma filter_take_getD {α : Type} (p : α → Bool) (l : List α) (j : ℕ) (d : α)
    (hj : j < l.length) (hp : p (l.getD j d) = true) :
    (l.filter p).getD (((l.take j).filter p).length) d = l.getD j d := by
  induction l generalizing j with
  | nil => simp at hj
  | cons a l ih =>
    cases j with
    | zero =>
      simp only [List.getD_cons_zero] at hp
      simp [List.filter_cons, hp]
    | succ j =>
      have hj2 : j < l.length := by simpa using hj
      have hp2 : p (l.getD j d) = true := by simpa using hp
      by_cases ha : p a = true
      · simpa [List.filter_cons, ha] using ih j hj2 hp2
      · simp only [Bool.not_eq_true] at ha
        simpa [List.filter_cons, ha] using ih j hj2 hp2

lemma filter_take_length_lt {α : Type} (p : α → Bool) (l : List α) (j : ℕ) (d : α)
    (hj : j < l.length) (hp : p (l.getD j d) = true) :
    ((l.take j).filter p).length < (l.filter p).length := by
  induction l generalizing j with
  | nil => simp at hj
  | cons a l ih =>
    cases j with
    | zero =>
      simp only [List.getD_cons_zero] at hp
      simp [List.filter_cons, hp]
    | succ j =>
      have hj2 : j < l.length := by simpa using hj
      have hp2 : p (l.getD j d) = true := by simpa using hp
      by_cases ha : p a = true
      · simpa [List.filter_cons, ha] using ih j hj2 hp2
      · simp only [Bool.not_eq_true] at ha
        simpa [List.filter_cons, ha] using ih j hj2 hp2

lemma getD_mem {α : Type} (l : List α) (j : ℕ) (d : α) (hj : j < l.length) :
    l.getD j d ∈ l := by
  induction l generalizing j with
  | nil => simp at hj
  | cons a l ih =>
    cases j with
    | zero => simp
    | succ j =>
      exact List.mem_cons_of_mem a (ih j (by simpa using hj))

end SpecList

namespace fits

/-! ### Positional characterization of the reconstruction loop -/

/-- Rank of position `j` of the canonical order among the free parameters:
the value of the running index `di` when the loop reaches that key. -/
def rankAt (st : FitState) (j : ℕ) : ℕ :=
  ((order.take j).filter (fun k => (st.params k).use)).length

lemma reconstruct_length (st : FitState) (ks : List Key) (v ps : List ℚ) :
    (reconstruct st ks v ps).length = ks.length := by
  induction ks generalizing v ps with
  | nil => rfl
  | cons k ks ih =>
    by_cases h : (st.params k).use <;> simp [reconstruct, h, ih]

lemma reconstruct_getD (st : FitState) (ks : List Key) (v ps : List ℚ) (j : ℕ)
    (hj : j < ks.length) :
    (reconstruct st ks v ps).getD j 0 =
      if (st.params (ks.getD j Key.dx)).use then
        v.getD (((ks.take j).filter (fun k => (st.params k).use)).length) 0 *
          ps.getD (((ks.take j).filter (fun k => (st.params k).use)).length) 1
      else (st.params (ks.getD j Key.dx)).p0 := by
  induction ks generalizing v ps j with
  | nil => simp at hj
  | cons k ks ih =>
    cases j with
    | zero =>
      by_cases h : (st.params k).use
      · simp only [reconstruct, h, if_true, List.getD_cons_zero, List.take_zero,
          List.filter_nil, List.length_nil]
        cases v <;> cases ps <;> simp [List.headD, List.getD]
      · simp [reconstruct, h]
    | succ j =>
      have hj2 : j < ks.length := by simpa using hj
      by_cases h : (st.params k).use
      · simp only [reconstruct, h, if_true, List.getD_cons_succ]
        rw [ih v.tail ps.tail j hj2]
        simp [List.filter_cons, h, SpecList.tail_getD]
      · simp only [reconstruct, h, if_false, List.getD_cons_succ, Bool.false_eq_true]
        rw [ih v ps j hj2]
        simp [List.filter_cons, h]

lemma get_p0_scale_getD (st : FitState) (j : ℕ) (hj : j < order.length)
    (hu : (st.params (order.getD j Key.dx)).use = true) :
    (get_p0_scale st).getD (rankAt st j) 1 = (st.params (order.getD j Key.dx)).scale := by
  have hrank : rankAt st j < (freeKeys st).length := by
    simpa [rankAt, freeKeys] using
      SpecList.filter_take_length_lt (fun k => (st.params k).use) order j Key.dx hj hu
  have hkey : (freeKeys st).getD (rankAt st j) Key.dx = order.getD j Key.dx := by
    simpa [rankAt, freeKeys] using
      SpecList.filter_take_getD (fun k => (st.params k).use) order j Key.dx hj hu
  calc (get_p0_scale st).getD (rankAt st j) 1
      = (st.params ((freeKeys st).getD (rankAt st j) Key.dx)).scale := by
        simpa [get_p0_scale] using
          SpecList.getD_map_of_lt (fun k => (st.params k).scale) (freeKeys st)
            (rankAt st j) Key.dx 1 hrank
    _ = (st.params (order.getD j Key.dx)).scale := by rw [hkey]

end fits

namespace fits

/-! ### Characterization of the optimizer writeback loop -/

lemma updValue_use (p : Key → Param) (k : Key) (v : ℚ) (q : Key) :
    (updValue p k v q).use = (p q).use := by
  by_cases h : q = k <;> simp [updValue, h]

lemma updValue_scale (p : Key → Param) (k : Key) (v : ℚ) (q : Key) :
    (updValue p k v q).scale = (p q).scale := by
  by_cases h : q = k <;> simp [updValue, h]

lemma updValue_p0 (p : Key → Param) (k : Key) (v : ℚ) (q : Key) :
    (updValue p k v q).p0 = (p q).p0 := by
  by_cases h : q = k <;> simp [updValue, h]

lemma writeback_not_mem (p : Key → Param) (ks : List Key) (x : List ℚ) (k : Key)
    (hk : k ∉ ks) : writeback p ks x k = p k := by
  induction ks generalizing p x with
  | nil => rfl
  | cons a ks ih =>
    have hka : k ≠ a := fun h => hk (h ▸ List.mem_cons_self a ks)
    have hks : k ∉ ks := fun h => hk (List.mem_cons_of_mem a h)
    by_cases h : (p a).use
    · simp only [writeback, h, if_true]
      rw [ih _ _ hks]
      simp [updValue, hka]
    · simp only [writeback, h, if_false, Bool.false_eq_true]
      rw [ih _ _ hks]
      simp [updValue, hka]

lemma writeback_getD (p : Key → Param) (ks : List Key) (x : List ℚ) (j : ℕ)
    (hj : j < ks.length) (hnd : ks.Nodup) :
    (writeback p ks x (ks.getD j Key.dx)).value =
      if (p (ks.getD j Key.dx)).use then
        x.getD (((ks.take j).filter (fun a => (p a).use)).length) 0 *
          (p (ks.getD j Key.dx)).scale
      else (p (ks.getD j Key.dx)).p0 := by
  induction ks generalizing p x j with
  | nil => simp at hj
  | cons a ks ih =>
    have hand : a ∉ ks ∧ ks.Nodup := by simpa using hnd
    cases j with
    | zero =>
      by_cases h : (p a).use
      · simp only [List.getD_cons_zero, writeback, h, if_true]
        rw [writeback_not_mem _ _ _ _ hand.1]
        simp only [updValue, if_pos rfl]
        cases x <;> simp [List.headD, List.getD, h]
      · simp only [List.getD_cons_zero, writeback, h, if_false, Bool.false_eq_true]
        rw [writeback_not_mem _ _ _ _ hand.1]
        simp [updValue, h]
    | succ j =>
      have hj2 : j < ks.length := by simpa using hj
      have hmem : ks.getD j Key.dx ∈ ks := SpecList.getD_mem ks j Key.dx hj2
      have hne : ks.getD j Key.dx ≠ a := fun h => hand.1 (h ▸ hmem)
      have huse : ∀ (v : ℚ) (q : Key), (updValue p a v q).use = (p q).use :=
        fun v q => updValue_use p a v q
      by_cases h : (p a).use
      · simp only [List.getD_cons_succ, writeback, h, if_true]
        rw [ih (updValue p a (x.headD 0 * (p a).scale)) x.tail j hj2 hand.2]
        have hfeq : ∀ l : List Key,
            l.filter (fun q => (updValue p a (x.headD 0 * (p a).scale) q).use) =
              l.filter (fun q => (p q).use) := by
          intro l
          apply List.filter_congr
          intro q _
          rw [huse]
        rw [hfeq, updValue_use, updValue_scale, updValue_p0]
        simp [List.filter_cons, h, SpecList.tail_getD]
      · simp only [List.getD_cons_succ, writeback, h, if_false, Bool.false_eq_true]
        rw [ih (updValue p a (p a).p0) x j hj2 hand.2]
        have hfeq : ∀ l : List Key,
            l.filter (fun q => (updValue p a (p a).p0 q).use) =
              l.filter (fun q => (p q).use) := by
          intro l
          apply List.filter_congr
          intro q _
          rw [updValue_use]
        rw [hfeq, updValue_use, updValue_scale, updValue_p0]
        simp [List.filter_cons, h]

lemma order_nodup : order.Nodup := by decide

end fits

namespace fits

lemma call_params_getD (st : FitState) (v : List ℚ) (es : Bool) (j : ℕ)
    (hj8 : j < order.length) :
    (call_params st v es).getD j 0 =
      if (st.params (order.getD j Key.dx)).use then
        v.getD (rankAt st j) 0 *
          (if es then get_p0_scale st else List.replicate v.length 1).getD (rankAt st j) 1
      else (st.params (order.getD j Key.dx)).p0 := by
  rw [call_params]
  exact reconstruct_getD st order v _ j hj8

end fits

/-- Claim C1: For every reduced vector `v` given to a cost-function evaluator
(chi-square or log-likelihood), the full physical parameter tuple is
reconstructed in the canonical order `dx, dy, phi, total_cts, sigma, f_p1,
f_p2, f_p3`: each free parameter's entry is `v[i] * scale[i]` (the scale
factor applied only when scaling is enabled), each fixed parameter's entry
falls back to its initial value `p0`, and the background fraction passed
to the pattern generator as element 0 of the fractions vector equals
`1 - sum(active site fractions)`, with no clamping (the equality holds for
every value of the active fractions, including sums exceeding one). -/
theorem claim1_reduced_vector_reconstruction (st : fits.FitState) (v : List ℚ)
    (es : Bool) (j : ℕ) (hj : j < 8) (hv : v.length = fits.numFree st) :
    (fits.call_params st v es).length = 8 ∧
    ((fits.call_params st v es).getD j 0 =
      if (st.params (fits.order.getD j fits.Key.dx)).use then
        v.getD (fits.rankAt st j) 0 *
          (if es then (st.params (fits.order.getD j fits.Key.dx)).scale else 1)
      else (st.params (fits.order.getD j fits.Key.dx)).p0) ∧
    (∀ (gen : fits.GenCall → List ℚ) (data : List ℚ) (valid : List Bool),
      (fits.chi_square_call gen data valid st v es).1.fractions =
        (1 - (fits.active_fractions st (fits.call_params st v es)).sum) ::
          fits.active_fractions st (fits.call_params st v es)) ∧
    (∀ (logQ : ℚ → ℚ) (gen : fits.GenCall → List ℚ) (data : List ℚ) (valid : List Bool),
      (fits.log_likelihood_call logQ gen data valid st v es).1.fractions =
        (1 - (fits.active_fractions st (fits.call_params st v es)).sum) ::
          fits.active_fractions st (fits.call_params st v es)) := by
  have hj8 : j < fits.order.length := by simpa [fits.order] using hj
  refine ⟨?_, ?_, ?_, ?_⟩
  · rw [fits.call_params, fits.reconstruct_length]
    rfl
  · rw [fits.call_params_getD st v es j hj8]
    by_cases hu : (st.params (fits.order.getD j fits.Key.dx)).use
    · simp only [hu, if_true]
      cases es with
      | true =>
        simp only [if_true]
        rw [fits.get_p0_scale_getD st j hj8 hu]
      | false =>
        simp only [if_false, Bool.false_eq_true]
        rw [SpecList.replicate_getD_self, mul_one]
    · simp only [if_neg hu]
  · intro gen data valid
    rfl
  · intro logQ gen data valid
    rfl

/-- A concrete `fits` parameter state used by the witnesses: `dx`, `phi`,
`sigma` and `f_p1` free, the rest fixed, site 1 selected. -/
def witnessState : fits.FitState where
  params := fun k =>
    match k with
    | fits.Key.dx => ⟨10, 0, true, 2⟩
    | fits.Key.dy => ⟨20, 0, false, 1⟩
    | fits.Key.phi => ⟨30, 0, true, 3⟩
    | fits.Key.total_cts => ⟨1000, 0, false, 100⟩
    | fits.Key.sigma => ⟨1 / 10, 0, true, 1⟩
    | fits.Key.f_p1 => ⟨1 / 4, 0, true, 1⟩
    | fits.Key.f_p2 => ⟨1 / 4, 0, false, 1⟩
    | fits.Key.f_p3 => ⟨1 / 4, 0, false, 1⟩
  pattern1_use := true
  pattern2_use := false
  pattern3_use := false

theorem claim1_witness :
    (fits.call_params witnessState [5, 6, 7, 8] true).length = 8 ∧
    ((fits.call_params witnessState [5, 6, 7, 8] true).getD 2 0 =
      if (witnessState.params (fits.order.getD 2 fits.Key.dx)).use then
        ([5, 6, 7, 8] : List ℚ).getD (fits.rankAt witnessState 2) 0 *
          (if true then (witnessState.params (fits.order.getD 2 fits.Key.dx)).scale else 1)
      else (witnessState.params (fits.order.getD 2 fits.Key.dx)).p0) ∧
    (∀ (gen : fits.GenCall → List ℚ) (data : List ℚ) (valid : List Bool),
      (fits.chi_square_call gen data valid witnessState [5, 6, 7, 8] true).1.fractions =
        (1 - (fits.active_fractions witnessState
            (fits.call_params witnessState [5, 6, 7, 8] true)).sum) ::
          fits.active_fractions witnessState
            (fits.call_params witnessState [5, 6, 7, 8] true)) ∧
    (∀ (logQ : ℚ → ℚ) (gen : fits.GenCall → List ℚ) (data : List ℚ) (valid : List Bool),
      (fits.log_likelihood_call logQ gen data valid witnessState [5, 6, 7, 8] true).1.fractions =
        (1 - (fits.active_fractions witnessState
            (fits.call_params witnessState [5, 6, 7, 8] true)).sum) ::
          fits.active_fractions witnessState
            (fits.call_params witnessState [5, 6, 7, 8] true)) :=
  claim1_reduced_vector_reconstruction witnessState [5, 6, 7, 8] true 2
    (by decide) (by decide)

namespace fits

/-- Modelled from the spec: pattern synthesis (`PatternCreator.make_pattern`,
not under `src/`) represents cells outside the simulated range by "a very
small number 1e-12" (comment at `fitmanager.py:684-685`) and, per the spec,
clamps synthetic cell values to that small positive floor so that the
chi-square division is guarded. -/
def floor_val : ℚ := 1 / 1000000000000

/-- Modelled from the spec: the synthetic pattern returned by the external
generator, with every cell clamped to the small positive floor. -/
def make_pattern_clamped (gen0 : GenCall → List ℚ) (c : GenCall) : List ℚ :=
  (gen0 c).map (fun y => max y floor_val)

end fits

/-- Claim C2: For every chi-square evaluation, the returned score equals the
sum over valid (unmasked) cells of `(observed - synthetic)^2 / |synthetic|`,
and the division is guarded against synthetic cell values that are exactly
zero: every cell of the synthetic pattern is clamped to the small positive
floor, so each divisor `|synthetic|` is strictly positive and the
evaluation never performs a division by zero. -/
theorem claim2_chi_square_guarded_score (gen0 : fits.GenCall → List ℚ)
    (data : List ℚ) (valid : List Bool) (dx dy phi total_events : ℚ)
    (fractions_sims : List ℚ) (sigma : ℚ) :
    ((fits.chi_square (fits.make_pattern_clamped gen0) data valid dx dy phi
        total_events fractions_sims sigma).2 =
      fits.chi2Score data
        (fits.make_pattern_clamped gen0
          (fits.chi_square (fits.make_pattern_clamped gen0) data valid dx dy phi
            total_events fractions_sims sigma).1) valid) ∧
    (∀ (d s : ℚ) (b : Bool) (ds ss : List ℚ) (bs : List Bool),
      fits.chi2Score (d :: ds) (s :: ss) (b :: bs) =
        (if b then (d - s) ^ 2 / |s| else 0) + fits.chi2Score ds ss bs) ∧
    (∀ s ∈ fits.make_pattern_clamped gen0
        (fits.chi_square (fits.make_pattern_clamped gen0) data valid dx dy phi
          total_events fractions_sims sigma).1,
      fits.floor_val ≤ s ∧ 0 < |s|) := by
  refine ⟨rfl, fun d s b ds ss bs => rfl, ?_⟩
  intro s hs
  rw [fits.make_pattern_clamped, List.mem_map] at hs
  obtain ⟨y, _, hy⟩ := hs
  have hfloor : fits.floor_val ≤ s := hy ▸ le_max_right y fits.floor_val
  have hpos : 0 < s := lt_of_lt_of_le (by norm_num [fits.floor_val]) hfloor
  exact ⟨hfloor, abs_pos.mpr (ne_of_gt hpos)⟩

/-- Claim C3: For every negative log-likelihood evaluation, the pattern
generator is invoked with `total_counts = 1`, the returned score equals
`-sum(observed_i * log(synthetic_i))` over valid cells, and `total_cts` is
never a free parameter in likelihood mode: `maximize_likelyhood` forces
its free flag to false before building the reduced vector (only that flag
changes, every other parameter is untouched). -/
theorem claim3_likelihood_unit_counts_and_fixed_total (logQ : ℚ → ℚ)
    (gen : fits.GenCall → List ℚ) (data : List ℚ) (valid : List Bool)
    (dx dy phi : ℚ) (fractions_sims : List ℚ) (sigma : ℚ) (st : fits.FitState) :
    ((fits.log_likelihood logQ gen data valid dx dy phi fractions_sims sigma).1.total_events
        = 1) ∧
    ((fits.log_likelihood logQ gen data valid dx dy phi fractions_sims sigma).2 =
      -(fits.llScore logQ data
          (gen (fits.log_likelihood logQ gen data valid dx dy phi
            fractions_sims sigma).1) valid)) ∧
    (∀ (d s : ℚ) (b : Bool) (ds ss : List ℚ) (bs : List Bool),
      fits.llScore logQ (d :: ds) (s :: ss) (b :: bs) =
        (if b then d * logQ s else 0) + fits.llScore logQ ds ss bs) ∧
    (((fits.maximize_likelyhood_setup st).1.params fits.Key.total_cts).use = false) ∧
    (fits.Key.total_cts ∉ fits.freeKeys (fits.maximize_likelyhood_setup st).1) ∧
    (∀ k : fits.Key, k ≠ fits.Key.total_cts →
      (fits.maximize_likelyhood_setup st).1.params k = st.params k) ∧
    ((fits.maximize_likelyhood_setup st).2 =
      fits.get_p0 (fits.maximize_likelyhood_setup st).1) := by
  refine ⟨rfl, rfl, fun d s b ds ss bs => rfl, ?_, ?_, ?_, rfl⟩
  · simp [fits.maximize_likelyhood_setup, fits.setUse]
  · intro hmem
    rw [fits.freeKeys, List.mem_filter] at hmem
    have : ((fits.maximize_likelyhood_setup st).1.params fits.Key.total_cts).use = false := by
      simp [fits.maximize_likelyhood_setup, fits.setUse]
    rw [this] at hmem
    exact Bool.false_ne_true hmem.2
  · intro k hk
    simp [fits.maximize_likelyhood_setup, fits.setUse, hk]

namespace fits

lemma setUse_p0 (st : FitState) (k : Key) (b : Bool) (q : Key) :
    ((setUse st k b).params q).p0 = (st.params q).p0 := by
  by_cases h : q = k <;> simp [setUse, h]

lemma setUse_scale (st : FitState) (k : Key) (b : Bool) (q : Key) :
    ((setUse st k b).params q).scale = (st.params q).scale := by
  by_cases h : q = k <;> simp [setUse, h]

lemma setUse_use_other (st : FitState) (k : Key) (b : Bool) (q : Key) (h : q ≠ k) :
    ((setUse st k b).params q).use = (st.params q).use := by
  simp [setUse, h]

lemma setUse_use_self (st : FitState) (k : Key) (b : Bool) :
    ((setUse st k b).params k).use = b := by
  simp [setUse]

end fits

/-- Claim C7: On completion of a minimization (chi-square or likelihood),
each returned free coordinate is multiplied by that parameter's scale and
written into the registry as its fitted value, while every parameter that
was fixed keeps its configured value `p0`: running the driver with
parameter P fixed at value `v = p0` never changes P's reported fitted
value from `v`.  (In likelihood mode `total_cts` is first forced non-free,
so it too keeps its configured value.) -/
theorem claim7_fixed_parameters_preserved (st : fits.FitState) (x : List ℚ)
    (j : ℕ) (hj : j < 8) :
    (((fits.minimize_chi2_writeback st x).params (fits.order.getD j fits.Key.dx)).value =
      if (st.params (fits.order.getD j fits.Key.dx)).use then
        x.getD (fits.rankAt st j) 0 * (st.params (fits.order.getD j fits.Key.dx)).scale
      else (st.params (fits.order.getD j fits.Key.dx)).p0) ∧
    ((st.params (fits.order.getD j fits.Key.dx)).use = false →
      ((fits.minimize_chi2_writeback st x).params (fits.order.getD j fits.Key.dx)).value =
        (st.params (fits.order.getD j fits.Key.dx)).p0) ∧
    (((fits.maximize_likelyhood_writeback st x).params (fits.order.getD j fits.Key.dx)).value =
      if ((fits.setUse st fits.Key.total_cts false).params (fits.order.getD j fits.Key.dx)).use then
        x.getD (fits.rankAt (fits.setUse st fits.Key.total_cts false) j) 0 *
          (st.params (fits.order.getD j fits.Key.dx)).scale
      else (st.params (fits.order.getD j fits.Key.dx)).p0) ∧
    (((st.params (fits.order.getD j fits.Key.dx)).use = false ∨
        fits.order.getD j fits.Key.dx = fits.Key.total_cts) →
      ((fits.maximize_likelyhood_writeback st x).params (fits.order.getD j fits.Key.dx)).value =
        (st.params (fits.order.getD j fits.Key.dx)).p0) := by
  have hj8 : j < fits.order.length := by simpa [fits.order] using hj
  have hA := fits.writeback_getD st.params fits.order x j hj8 fits.order_nodup
  have hC0 := fits.writeback_getD (fits.setUse st fits.Key.total_cts false).params
    fits.order x j hj8 fits.order_nodup
  have hC : ((fits.maximize_likelyhood_writeback st x).params
      (fits.order.getD j fits.Key.dx)).value =
      if ((fits.setUse st fits.Key.total_cts false).params
          (fits.order.getD j fits.Key.dx)).use then
        x.getD (fits.rankAt (fits.setUse st fits.Key.total_cts false) j) 0 *
          (st.params (fits.order.getD j fits.Key.dx)).scale
      else (st.params (fits.order.getD j fits.Key.dx)).p0 := by
    rw [show ((fits.maximize_likelyhood_writeback st x).params
        (fits.order.getD j fits.Key.dx)).value =
        ((fits.writeback (fits.setUse st fits.Key.total_cts false).params fits.order x)
          (fits.order.getD j fits.Key.dx)).value from rfl]
    rw [hC0, fits.setUse_p0, fits.setUse_scale]
    rfl
  have hA2 : ((fits.minimize_chi2_writeback st x).params
      (fits.order.getD j fits.Key.dx)).value =
      if (st.params (fits.order.getD j fits.Key.dx)).use then
        x.getD (fits.rankAt st j) 0 * (st.params (fits.order.getD j fits.Key.dx)).scale
      else (st.params (fits.order.getD j fits.Key.dx)).p0 := hA
  refine ⟨hA2, fun h => by rw [hA2, if_neg (by simpa using h)], hC, ?_⟩
  intro h
  have huse : ((fits.setUse st fits.Key.total_cts false).params
      (fits.order.getD j fits.Key.dx)).use = false := by
    rcases h with h | h
    · by_cases hk : fits.order.getD j fits.Key.dx = fits.Key.total_cts
      · rw [hk, fits.setUse_use_self]
      · rw [fits.setUse_use_other st _ _ _ hk, h]
    · rw [h, fits.setUse_use_self]
  rw [hC, if_neg (by simpa using huse)]

theorem claim7_witness :
    (((fits.minimize_chi2_writeback witnessState [11, 12, 13, 14]).params
        (fits.order.getD 3 fits.Key.dx)).value =
      if (witnessState.params (fits.order.getD 3 fits.Key.dx)).use then
        ([11, 12, 13, 14] : List ℚ).getD (fits.rankAt witnessState 3) 0 *
          (witnessState.params (fits.order.getD 3 fits.Key.dx)).scale
      else (witnessState.params (fits.order.getD 3 fits.Key.dx)).p0) ∧
    ((witnessState.params (fits.order.getD 3 fits.Key.dx)).use = false →
      ((fits.minimize_chi2_writeback witnessState [11, 12, 13, 14]).params
          (fits.order.getD 3 fits.Key.dx)).value =
        (witnessState.params (fits.order.getD 3 fits.Key.dx)).p0) ∧
    (((fits.maximize_likelyhood_writeback witnessState [11, 12, 13, 14]).params
        (fits.order.getD 3 fits.Key.dx)).value =
      if ((fits.setUse witnessState fits.Key.total_cts false).params
          (fits.order.getD 3 fits.Key.dx)).use then
        ([11, 12, 13, 14] : List ℚ).getD
            (fits.rankAt (fits.setUse witnessState fits.Key.total_cts false) 3) 0 *
          (witnessState.params (fits.order.getD 3 fits.Key.dx)).scale
      else (witnessState.params (fits.order.getD 3 fits.Key.dx)).p0) ∧
    (((witnessState.params (fits.order.getD 3 fits.Key.dx)).use = false ∨
        fits.order.getD 3 fits.Key.dx = fits.Key.total_cts) →
      ((fits.maximize_likelyhood_writeback witnessState [11, 12, 13, 14]).params
          (fits.order.getD 3 fits.Key.dx)).value =
        (witnessState.params (fits.order.getD 3 fits.Key.dx)).p0) :=
  claim7_fixed_parameters_preserved witnessState [11, 12, 13, 14] 3 (by decide)

/-- Claim C8: The error estimator computes a numeric Hessian of the cost
function at the fitted reduced vector (descaled when scaling is enabled)
and, for the likelihood cost, inverts the Hessian directly while for the
chi-square cost it inverts `0.5 * Hessian`; each parameter's standard
error equals the square root of the corresponding diagonal entry of the
inverted matrix, rescaled by that parameter's scale when scaling is
enabled; if the inversion is not possible (singular matrix) this is
reported as an error, not silently defaulted to zero or NaN. -/
theorem claim8_hessian_inversion_errors {m : ℕ} (sqrtQ : ℚ → ℚ)
    (hess : (Fin m → ℚ) → Matrix (Fin m) (Fin m) ℚ) (scale : Fin m → ℚ)
    (es : Bool) (x0 : Fin m → ℚ) (xs : Fin m → ℚ)
    (hxs : xs = if es then (fun i => x0 i / scale i) else x0) :
    ((hess xs).det ≠ 0 →
      fits.get_variance_from_hessian sqrtQ hess scale es "likelihood" x0 =
        Except.ok (fun i =>
          sqrtQ ((((hess xs).det)⁻¹ • (hess xs).adjugate) i i) *
            (if es then scale i else 1))) ∧
    ((hess xs).det = 0 →
      fits.get_variance_from_hessian sqrtQ hess scale es "likelihood" x0 =
        Except.error "LinAlgError: Singular matrix") ∧
    (((1 / 2 : ℚ) • hess xs).det ≠ 0 →
      fits.get_variance_from_hessian sqrtQ hess scale es "chi_square" x0 =
        Except.ok (fun i =>
          sqrtQ (((((1 / 2 : ℚ) • hess xs).det)⁻¹ •
            ((1 / 2 : ℚ) • hess xs).adjugate) i i) *
            (if es then scale i else 1))) ∧
    (((1 / 2 : ℚ) • hess xs).det = 0 →
      fits.get_variance_from_hessian sqrtQ hess scale es "chi_square" x0 =
        Except.error "LinAlgError: Singular matrix") ∧
    (∀ f : String, f ≠ "likelihood" → f ≠ "chi_square" →
      fits.get_variance_from_hessian sqrtQ hess scale es f x0 =
        Except.error "undefined function, should be likelihood or chi_square") := by
  subst hxs
  have hlik : ("likelihood" : String) = "likelihood" ∨ ("likelihood" : String) = "chi_square" :=
    Or.inl rfl
  have hchi : ("chi_square" : String) = "likelihood" ∨ ("chi_square" : String) = "chi_square" :=
    Or.inr rfl
  have hne : ¬("chi_square" : String) = "likelihood" := by decide
  refine ⟨?_, ?_, ?_, ?_, ?_⟩
  · intro hdet
    simp only [fits.get_variance_from_hessian, fits.npInv, true_or, if_true]
    rw [if_neg hdet]
  · intro hdet
    simp only [fits.get_variance_from_hessian, fits.npInv, true_or, if_true]
    rw [if_pos hdet]
  · intro hdet
    simp only [fits.get_variance_from_hessian, fits.npInv, or_true, if_true]
    rw [if_neg hne, if_neg hdet]
  · intro hdet
    simp only [fits.get_variance_from_hessian, fits.npInv, or_true, if_true]
    rw [if_neg hne, if_pos hdet]
  · intro f hf1 hf2
    have hn : ¬(f = "likelihood" ∨ f = "chi_square") := by
      intro h
      rcases h with h | h
      · exact hf1 h
      · exact hf2 h
    simp only [fits.get_variance_from_hessian, if_neg hn]

/-- Concrete data for the C8 witness: a well-conditioned 1x1 Hessian, a
singular one, a scale of 3 and a fitted coordinate of 6. -/
def c8Hess : (Fin 1 → ℚ) → Matrix (Fin 1) (Fin 1) ℚ := fun _ => !![2]

def c8HessSing : (Fin 1 → ℚ) → Matrix (Fin 1) (Fin 1) ℚ := fun _ => !![0]

def c8Scale : Fin 1 → ℚ := fun _ => 3

def c8X : Fin 1 → ℚ := fun _ => 6

def c8Xs : Fin 1 → ℚ := if true then (fun i => c8X i / c8Scale i) else c8X

theorem claim8_witness :
    (fits.get_variance_from_hessian id c8Hess c8Scale true "likelihood" c8X =
      Except.ok (fun i =>
        id ((((c8Hess c8Xs).det)⁻¹ • (c8Hess c8Xs).adjugate) i i) *
          (if true then c8Scale i else 1))) ∧
    (fits.get_variance_from_hessian id c8HessSing c8Scale true "likelihood" c8X =
      Except.error "LinAlgError: Singular matrix") ∧
    (fits.get_variance_from_hessian id c8Hess c8Scale true "chi_square" c8X =
      Except.ok (fun i =>
        id (((((1 / 2 : ℚ) • c8Hess c8Xs).det)⁻¹ •
          ((1 / 2 : ℚ) • c8Hess c8Xs).adjugate) i i) *
          (if true then c8Scale i else 1))) :=
  ⟨(claim8_hessian_inversion_errors id c8Hess c8Scale true c8X c8Xs rfl).1
      (by norm_num [c8Hess, Matrix.det_fin_one]),
   (claim8_hessian_inversion_errors id c8HessSing c8Scale true c8X c8Xs rfl).2.1
      (by norm_num [c8HessSing, Matrix.det_fin_one]),
   (claim8_hessian_inversion_errors id c8Hess c8Scale true c8X c8Xs rfl).2.2.1
      (by norm_num [c8Hess, Matrix.det_fin_one, Matrix.smul_apply])⟩

namespace FitManager

/-! ### Characterization of the sweep -/

/-- Value carried by a successful outcome (`results['fun']`). -/
def okVal (e : Except PyErr ℚ) : ℚ :=
  match e with
  | Except.ok v => v
  | Except.error _ => 0

/-- The effect of one successful `_single_fit` on the orchestrator state
(the success branch of `single_fit`: append the result row, update best on
strict improvement, always update last, reset the handle). -/
def track (st : FMState) (r : List ℤ × ℚ) : FMState :=
  match st.min_value with
  | none => ⟨some r.2, some r, some r, none, st.processed ++ [r]⟩
  | some m =>
    if r.2 < m then ⟨some r.2, some r, some r, none, st.processed ++ [r]⟩
    else ⟨some m, st.best_fit, some r, none, st.processed ++ [r]⟩

lemma single_fit_ok (n : ℕ) (outcome : List ℤ → Except PyErr ℚ)
    (sites : List ℤ) (st : FMState) (v : ℚ)
    (hlen : sites.length = n) (hv : outcome sites = Except.ok v) :
    single_fit n outcome sites st = (track st (sites, v), none) := by
  rw [single_fit, if_neg (by rw [hlen]; exact fun h => h rfl)]
  simp only [hv]
  rw [track]
  cases hm : st.min_value with
  | none => rfl
  | some m =>
    by_cases hlt : v < m
    · simp [hm, hlt]
    · simp [hm, hlt]

lemma single_fit_err (n : ℕ) (outcome : List ℤ → Except PyErr ℚ)
    (sites : List ℤ) (st : FMState) (e : PyErr)
    (hlen : sites.length = n) (hv : outcome sites = Except.error e) :
    single_fit n outcome sites st =
      ({ st with current_fit_obj := some sites }, some e) := by
  rw [single_fit, if_neg (by rw [hlen]; exact fun h => h rfl)]
  simp only [hv]

lemma sweep_ok (n : ℕ) (outcome : List ℤ → Except PyErr ℚ)
    (combos : List (List ℤ)) (st : FMState)
    (h : ∀ c ∈ combos, c.length = n ∧ (outcome c).isOk) :
    sweep n outcome combos st =
      ((combos.map (fun c => (c, okVal (outcome c)))).foldl track st, none) := by
  induction combos generalizing st with
  | nil => rfl
  | cons c rest ih =>
    obtain ⟨hlen, hok⟩ := h c (List.mem_cons_self c rest)
    obtain ⟨v, hv⟩ : ∃ v, outcome c = Except.ok v := by
      cases hoc : outcome c with
      | ok v => exact ⟨v, rfl⟩
      | error e =>
        rw [hoc] at hok
        simp [Except.isOk, Except.toBool] at hok
    rw [sweep, single_fit_ok n outcome c st v hlen hv]
    have hred : (match (track st (c, v), (none : Option PyErr)) with
        | (st1, some e) => (st1, some e)
        | (st1, none) => sweep n outcome rest st1) =
        sweep n outcome rest (track st (c, v)) := rfl
    rw [hred, ih _ (fun d hd => h d (List.mem_cons_of_mem c hd))]
    simp [hv, okVal]

lemma track_processed (st : FMState) (r : List ℤ × ℚ) :
    (track st r).processed = st.processed ++ [r] := by
  rw [track]
  cases st.min_value with
  | none => rfl
  | some m => by_cases hlt : r.2 < m <;> simp [hlt]

lemma track_current (st : FMState) (r : List ℤ × ℚ) :
    (track st r).current_fit_obj = none := by
  rw [track]
  cases st.min_value with
  | none => rfl
  | some m => by_cases hlt : r.2 < m <;> simp [hlt]

lemma track_last (st : FMState) (r : List ℤ × ℚ) :
    (track st r).last_fit = some r := by
  rw [track]
  cases st.min_value with
  | none => rfl
  | some m => by_cases hlt : r.2 < m <;> simp [hlt]

lemma foldl_track_processed (rs : List (List ℤ × ℚ)) (st : FMState) :
    (rs.foldl track st).processed = st.processed ++ rs := by
  induction rs generalizing st with
  | nil => simp
  | cons r rs ih =>
    rw [List.foldl_cons, ih, track_processed, List.append_assoc]
    rfl

lemma foldl_track_current : ∀ (rs : List (List ℤ × ℚ)) (st : FMState), rs ≠ [] →
    (rs.foldl track st).current_fit_obj = none
  | [r], st, _ => by rw [List.foldl_cons, List.foldl_nil, track_current]
  | r :: a :: as, st, _ => by
    rw [List.foldl_cons]
    exact foldl_track_current (a :: as) (track st r) (by simp)

lemma foldl_track_last : ∀ (rs : List (List ℤ × ℚ)) (st : FMState), rs ≠ [] →
    (rs.foldl track st).last_fit = rs.getLast?
  | [r], st, _ => by
    rw [List.foldl_cons, List.foldl_nil, track_last]
    rfl
  | r :: a :: as, st, _ => by
    rw [List.foldl_cons, foldl_track_last (a :: as) (track st r) (by simp),
      List.getLast?_cons_cons]

lemma foldl_track_best (rs : List (List ℤ × ℚ)) (st : FMState)
    (b0 : List ℤ × ℚ) (h1 : st.min_value = some b0.2) (h2 : st.best_fit = some b0) :
    ∃ b, (rs.foldl track st).best_fit = some b ∧
      (rs.foldl track st).min_value = some b.2 ∧
      (b = b0 ∨ b ∈ rs) ∧ b.2 ≤ b0.2 ∧ ∀ r ∈ rs, b.2 ≤ r.2 := by
  induction rs generalizing st b0 with
  | nil => exact ⟨b0, h2, h1, Or.inl rfl, le_refl _, fun r hr => absurd hr (by simp)⟩
  | cons r rs ih =>
    rw [List.foldl_cons]
    by_cases hlt : r.2 < b0.2
    · have ht : track st r = ⟨some r.2, some r, some r, none, st.processed ++ [r]⟩ := by
        rw [track, h1]
        simp [hlt]
      obtain ⟨b, hb1, hb2, hb3, hb4, hb5⟩ := ih (track st r) r (by rw [ht]) (by rw [ht])
      refine ⟨b, hb1, hb2, ?_, ?_, ?_⟩
      · rcases hb3 with h | h
        · exact Or.inr (h ▸ List.mem_cons_self r rs)
        · exact Or.inr (List.mem_cons_of_mem r h)
      · exact le_trans hb4 (le_of_lt hlt)
      · intro q hq
        rcases List.mem_cons.mp hq with h | h
        · exact h ▸ hb4
        · exact hb5 q h
    · have ht : track st r = ⟨some b0.2, st.best_fit, some r, none, st.processed ++ [r]⟩ := by
        rw [track, h1]
        simp [hlt]
      obtain ⟨b, hb1, hb2, hb3, hb4, hb5⟩ := ih (track st r) b0 (by rw [ht]) (by rw [ht]; exact h2)
      refine ⟨b, hb1, hb2, ?_, hb4, ?_⟩
      · rcases hb3 with h | h
        · exact Or.inl h
        · exact Or.inr (List.mem_cons_of_mem r h)
      · intro q hq
        rcases List.mem_cons.mp hq with h | h
        · exact h ▸ le_trans hb4 (le_of_not_lt hlt)
        · exact hb5 q h

lemma foldl_track_best_init (rs : List (List ℤ × ℚ)) (h : rs ≠ []) :
    ∃ b, (rs.foldl track initState).best_fit = some b ∧
      (rs.foldl track initState).min_value = some b.2 ∧
      b ∈ rs ∧ ∀ r ∈ rs, b.2 ≤ r.2 := by
  cases rs with
  | nil => exact absurd rfl h
  | cons r rs =>
    rw [List.foldl_cons]
    have ht : track initState r = ⟨some r.2, some r, some r, none, [r]⟩ := by
      rw [track]
      rfl
    obtain ⟨b, hb1, hb2, hb3, hb4, hb5⟩ :=
      foldl_track_best rs (track initState r) r (by rw [ht]) (by rw [ht])
    refine ⟨b, hb1, hb2, ?_, ?_⟩
    · rcases hb3 with hh | hh
      · exact hh ▸ List.mem_cons_self r rs
      · exact List.mem_cons_of_mem r hh
    · intro q hq
      rcases List.mem_cons.mp hq with hh | hh
      · exact hh ▸ hb4
      · exact hb5 q hh

end FitManager

namespace FitManager

lemma recursive_call_mem_length (args : List (List ℤ)) (sites : List ℤ) (c : List ℤ)
    (hc : c ∈ recursive_call args sites) : c.length = sites.length + args.length := by
  induction args generalizing sites with
  | nil =>
    rw [recursive_call, List.mem_singleton] at hc
    subst hc
    simp
  | cons l rest ih =>
    rw [recursive_call, List.mem_flatMap] at hc
    obtain ⟨s, _, hc2⟩ := hc
    have := ih (sites ++ [s]) hc2
    simp only [List.length_append, List.length_singleton, List.length_cons,
      List.length_nil] at this ⊢
    omega

lemma sweep_prefix (n : ℕ) (outcome : List ℤ → Except PyErr ℚ)
    (combos : List (List ℤ)) (st : FMState)
    (hlen : ∀ c ∈ combos, c.length = n) :
    ((sweep n outcome combos st).1.processed =
      st.processed ++ ((combos.takeWhile (fun c => (outcome c).isOk)).map
        (fun c => (c, okVal (outcome c))))) ∧
    ((sweep n outcome combos st).2 = none ↔ ∀ c ∈ combos, (outcome c).isOk) := by
  induction combos generalizing st with
  | nil => simp [sweep]
  | cons c rest ih =>
    have hlc := hlen c (List.mem_cons_self c rest)
    cases hoc : outcome c with
    | error e =>
      rw [sweep, single_fit_err n outcome c st e hlc hoc]
      constructor
      · simp [List.takeWhile_cons, hoc, Except.isOk, Except.toBool]
      · constructor
        · intro h
          exact absurd h (by simp)
        · intro h
          have := h c (List.mem_cons_self c rest)
          rw [hoc] at this
          simp [Except.isOk, Except.toBool] at this
    | ok v =>
      rw [sweep, single_fit_ok n outcome c st v hlc hoc]
      have hred : (match (track st (c, v), (none : Option PyErr)) with
          | (st1, some e) => (st1, some e)
          | (st1, none) => sweep n outcome rest st1) =
          sweep n outcome rest (track st (c, v)) := rfl
      rw [hred]
      obtain ⟨ihp, ihe⟩ := ih (track st (c, v)) (fun d hd => hlen d (List.mem_cons_of_mem c hd))
      constructor
      · rw [ihp, track_processed]
        simp [List.takeWhile_cons, hoc, Except.isOk, Except.toBool, okVal]
      · rw [ihe]
        constructor
        · intro h d hd
          rcases List.mem_cons.mp hd with hh | hh
          · subst hh
            rw [hoc]
            simp [Except.isOk, Except.toBool]
          · exact h d hh
        · intro h d hd
          exact h d (List.mem_cons_of_mem c hd)

lemma takeWhile_all {α : Type} (p : α → Bool) (l : List α)
    (h : ∀ a ∈ l, p a) : l.takeWhile p = l := by
  induction l with
  | nil => rfl
  | cons a l ih =>
    rw [List.takeWhile_cons, if_pos (h a (List.mem_cons_self a l))]
    rw [ih (fun b hb => h b (List.mem_cons_of_mem a hb))]

end FitManager

/-- The outcome used by the C4 counterexample: fitting site combination
`(1,)` raises an exception, fitting `(2,)` succeeds with cost 1. -/
def c4OutcomeEx : List ℤ → Except FitManager.PyErr ℚ := fun s =>
  if s = [(1 : ℤ)] then Except.error (FitManager.PyErr.other "fit failed")
  else Except.ok 1

/-- Claim C4, counterexample: The claim says that after an exception in one
combination the orchestrator "continues processing the remaining
combinations of the sweep".  At the concrete input below — one site slot
with candidates `[1, 2]`, where fitting `(1,)` raises and fitting `(2,)`
would succeed — `run_fits` returns with *no* processed combination at all:
the remaining combination `(2,)` is never fitted, so the sweep is
abandoned (although the handle is reset and no exception propagates). -/
theorem claim4_counterexample :
    (FitManager.run_fits 1 c4OutcomeEx true [[1, 2]] FitManager.initState).err = none ∧
    (FitManager.run_fits 1 c4OutcomeEx true [[1, 2]]
      FitManager.initState).state.current_fit_obj = none ∧
    (FitManager.run_fits 1 c4OutcomeEx true [[1, 2]]
      FitManager.initState).state.processed = [] ∧
    c4OutcomeEx [2] = Except.ok 1 ∧
    ([(2 : ℤ)], (1 : ℚ)) ∉
      (FitManager.run_fits 1 c4OutcomeEx true [[1, 2]]
        FitManager.initState).state.processed := by
  refine ⟨by decide, by decide, by decide, rfl, by decide⟩

namespace FitManager

/-- Full characterization of a `run_fits` call with the data in range:
no exception propagates, the handle ends reset, and exactly the longest
exception-free prefix of the enumeration is processed. -/
lemma run_fits_spec (n : ℕ) (outcome : List ℤ → Except PyErr ℚ)
    (args : List (List ℤ)) (st : FMState) (hn : args.length = n)
    (h1 : 1 ≤ args.length) (hcur : st.current_fit_obj = none) :
    (run_fits n outcome true args st).err = none ∧
    (run_fits n outcome true args st).warned = false ∧
    (run_fits n outcome true args st).state.current_fit_obj = none ∧
    (run_fits n outcome true args st).state.processed =
      st.processed ++ (((recursive_call args []).takeWhile
          (fun c => (outcome c).isOk)).map
        (fun c => (c, okVal (outcome c)))) := by
  have hlen : ∀ c ∈ recursive_call args [], c.length = n := by
    intro c hc
    have := recursive_call_mem_length args [] c hc
    simpa [hn] using this
  have hpre := sweep_prefix n outcome (recursive_call args []) st hlen
  have hrun : run_fits n outcome true args st =
      (match sweep n outcome (recursive_call args []) st with
        | (st1, some _) => ⟨{ st1 with current_fit_obj := none }, none, false⟩
        | (st1, none) => ⟨st1, none, false⟩) := by
    rw [run_fits, if_neg (by simp), if_neg (by omega)]
  cases hsw : sweep n outcome (recursive_call args []) st with
  | mk st1 e =>
    rw [hsw] at hpre hrun
    cases e with
    | some e =>
      rw [hrun]
      exact ⟨rfl, rfl, rfl, hpre.1⟩
    | none =>
      rw [hrun]
      refine ⟨rfl, rfl, ?_, hpre.1⟩
      have hall : ∀ c ∈ recursive_call args [], (outcome c).isOk :=
        hpre.2.mp rfl
      cases hcombos : recursive_call args [] with
      | nil =>
        rw [hcombos] at hsw
        rw [sweep] at hsw
        cases hsw
        exact hcur
      | cons a as =>
        rw [hcombos] at hsw hall
        rw [sweep_ok n outcome (a :: as) st
          (fun c hc => ⟨hlen c (hcombos ▸ hc), hall c hc⟩)] at hsw
        cases hsw
        exact foldl_track_current _ st (by simp)

end FitManager

/-- Claim C4, amended: During a multi-combination fit sweep, an exception
raised while processing one site combination is caught at the sweep level:
the orchestrator resets its transient current-fit handle to `None` and
returns without propagating the exception, but it does *not* continue with
the remaining combinations — exactly the combinations of the longest
exception-free prefix of the enumeration are processed, and everything
after the first failing combination is abandoned. -/
theorem claim4_amended_exception_swallowed (n : ℕ)
    (outcome : List ℤ → Except FitManager.PyErr ℚ) (args : List (List ℤ))
    (st : FitManager.FMState) (hn : args.length = n) (h1 : 1 ≤ args.length)
    (hcur : st.current_fit_obj = none) :
    (FitManager.run_fits n outcome true args st).err = none ∧
    (FitManager.run_fits n outcome true args st).warned = false ∧
    (FitManager.run_fits n outcome true args st).state.current_fit_obj = none ∧
    (FitManager.run_fits n outcome true args st).state.processed =
      st.processed ++ (((FitManager.recursive_call args []).takeWhile
          (fun c => (outcome c).isOk)).map
        (fun c => (c, FitManager.okVal (outcome c)))) :=
  FitManager.run_fits_spec n outcome args st hn h1 hcur

theorem claim4_amended_witness :
    (FitManager.run_fits 1 c4OutcomeEx true [[1, 2]] FitManager.initState).err = none ∧
    (FitManager.run_fits 1 c4OutcomeEx true [[1, 2]] FitManager.initState).warned = false ∧
    (FitManager.run_fits 1 c4OutcomeEx true [[1, 2]]
      FitManager.initState).state.current_fit_obj = none ∧
    (FitManager.run_fits 1 c4OutcomeEx true [[1, 2]]
      FitManager.initState).state.processed =
      FitManager.initState.processed ++
        (((FitManager.recursive_call [[1, 2]] []).takeWhile
            (fun c => (c4OutcomeEx c).isOk)).map
          (fun c => (c, FitManager.okVal (c4OutcomeEx c)))) :=
  claim4_amended_exception_swallowed 1 c4OutcomeEx [[1, 2]] FitManager.initState
    (by decide) (by decide) (by decide)

namespace FitManager

/-- The enumeration as the spec words it: "the full cartesian product of
index tuples, depth-first, preserving input order" — row-major, first slot
varying slowest. -/
def cartesianSpec : List (List ℤ) → List (List ℤ)
  | [] => [[]]
  | l :: rest => l.flatMap (fun s => (cartesianSpec rest).map (fun t => s :: t))

lemma recursive_call_eq_cartesian (args : List (List ℤ)) (sites : List ℤ) :
    recursive_call args sites = (cartesianSpec args).map (fun t => sites ++ t) := by
  induction args generalizing sites with
  | nil => simp [recursive_call, cartesianSpec]
  | cons l rest ih =>
    calc recursive_call (l :: rest) sites
        = l.flatMap (fun s => recursive_call rest (sites ++ [s])) := rfl
      _ = l.flatMap (fun s => (cartesianSpec rest).map (fun t => (sites ++ [s]) ++ t)) := by
          simp only [ih]
      _ = l.flatMap (fun s => (cartesianSpec rest).map (fun t => sites ++ (s :: t))) := by
          simp only [List.append_assoc, List.singleton_append]
      _ = (l.flatMap (fun s => (cartesianSpec rest).map (fun t => s :: t))).map
            (fun t => sites ++ t) := by
          rw [List.map_flatMap]
          simp only [List.map_map, Function.comp_def]
      _ = (cartesianSpec (l :: rest)).map (fun t => sites ++ t) := rfl

lemma flatMap_singleton_map {α β : Type} (f : α → β) (l : List α) :
    l.flatMap (fun a => [f a]) = l.map f := by
  induction l with
  | nil => rfl
  | cons a l ih => simp [List.flatMap_cons, ih]

lemma cartesianSpec_length (args : List (List ℤ)) :
    (cartesianSpec args).length = (args.map List.length).prod := by
  induction args with
  | nil => simp [cartesianSpec]
  | cons l rest ih =>
    rw [cartesianSpec, List.length_flatMap]
    simp only [Function.comp_def, List.length_map, ih]
    rw [List.map_const', List.sum_replicate, smul_eq_mul]
    simp [mul_comm]

lemma cartesianSpec_single (B : List ℤ) :
    cartesianSpec [B] = B.map (fun b => [b]) := by
  rw [cartesianSpec]
  have h1 : ∀ s : ℤ, (cartesianSpec []).map (fun t => s :: t) = [[s]] := fun s => rfl
  simp only [h1]
  exact flatMap_singleton_map (fun b => [b]) B

end FitManager

/-- Claim C5: Given one candidate-index set per site slot, `run_fits`
enumerates exactly the full cartesian product of index tuples, depth-first
and preserving input order; for `n_sites = 2` with candidate sets of sizes
`a` and `b` the enumeration is `A.flatMap (fun x => B.map (fun y => [x, y]))`
(cartesian row-major order, first slot slowest) and exactly `a * b`
selections are fitted. -/
theorem claim5_cartesian_enumeration :
    (∀ args : List (List ℤ),
      FitManager.recursive_call args [] = FitManager.cartesianSpec args) ∧
    (∀ args : List (List ℤ),
      (FitManager.cartesianSpec args).length = (args.map List.length).prod) ∧
    (∀ A B : List ℤ, FitManager.recursive_call [A, B] [] =
      A.flatMap (fun x => B.map (fun y => [x, y]))) ∧
    (∀ A B : List ℤ,
      (FitManager.recursive_call [A, B] []).length = A.length * B.length) ∧
    (∀ (outcome : List ℤ → Except FitManager.PyErr ℚ) (A B : List ℤ)
        (st : FitManager.FMState),
      (∀ c, (outcome c).isOk) → st.current_fit_obj = none →
      (FitManager.run_fits 2 outcome true [A, B] st).state.processed.length =
        st.processed.length + A.length * B.length) := by
  have heq : ∀ args : List (List ℤ),
      FitManager.recursive_call args [] = FitManager.cartesianSpec args := by
    intro args
    rw [FitManager.recursive_call_eq_cartesian]
    simp
  have hab : ∀ A B : List ℤ, FitManager.recursive_call [A, B] [] =
      A.flatMap (fun x => B.map (fun y => [x, y])) := by
    intro A B
    rw [heq]
    rw [FitManager.cartesianSpec, FitManager.cartesianSpec_single]
    congr 1
    funext s
    rw [List.map_map]
    rfl
  have hlen2 : ∀ A B : List ℤ,
      (FitManager.recursive_call [A, B] []).length = A.length * B.length := by
    intro A B
    rw [heq, FitManager.cartesianSpec_length]
    simp
  refine ⟨heq, FitManager.cartesianSpec_length, hab, hlen2, ?_⟩
  intro outcome A B st hok hcur
  obtain ⟨_, _, _, hproc⟩ := FitManager.run_fits_spec 2 outcome [A, B] st
    (by simp) (by simp) hcur
  rw [hproc, FitManager.takeWhile_all _ _ (fun c _ => hok c)]
  simp [hlen2 A B]

/-- Witness for C5's quantified conjuncts at a concrete input: two slots
with candidate sets `[1, 2]` and `[10, 20, 30]` and an all-successful
outcome. -/
theorem claim5_witness :
    (FitManager.recursive_call [[1, 2], [10, 20, 30]] [] =
      FitManager.cartesianSpec [[1, 2], [10, 20, 30]]) ∧
    ((FitManager.cartesianSpec [[1, 2], [10, 20, 30]]).length =
      ([[1, 2], [10, 20, 30]].map List.length).prod) ∧
    (FitManager.recursive_call [[1, 2], [10, 20, 30]] [] =
      ([1, 2] : List ℤ).flatMap (fun x => ([10, 20, 30] : List ℤ).map (fun y => [x, y]))) ∧
    ((∀ c, ((fun _ => Except.ok 7 : List ℤ → Except FitManager.PyErr ℚ) c).isOk) ∧
      (FitManager.run_fits 2 (fun _ => Except.ok 7) true [[1, 2], [10, 20, 30]]
        FitManager.initState).state.processed.length =
        FitManager.initState.processed.length + 2 * 3) :=
  ⟨claim5_cartesian_enumeration.1 [[1, 2], [10, 20, 30]],
   claim5_cartesian_enumeration.2.1 [[1, 2], [10, 20, 30]],
   claim5_cartesian_enumeration.2.2.1 [1, 2] [10, 20, 30],
   fun c => by simp [Except.isOk, Except.toBool],
   claim5_cartesian_enumeration.2.2.2.2 (fun _ => Except.ok 7) [1, 2] [10, 20, 30]
     FitManager.initState (fun c => by simp [Except.isOk, Except.toBool]) rfl⟩

/-- Claim C6: After each completed combination the orchestrator compares the
fit's cost value to the running minimum and updates its best fit only on
strict improvement, while the last fit is always updated to the most
recently processed combination regardless of its cost; hence after a sweep
with distinct cost values, the best fit holds the combination with the
globally minimal cost and the last fit holds the final combination
processed. -/
theorem claim6_best_last_tracking (n : ℕ)
    (outcome : List ℤ → Except FitManager.PyErr ℚ)
    (combos : List (List ℤ)) (hne : combos ≠ [])
    (hok : ∀ c ∈ combos, c.length = n ∧ (outcome c).isOk) :
    (∀ (oc : List ℤ → Except FitManager.PyErr ℚ) (st : FitManager.FMState)
        (sites : List ℤ) (v m : ℚ),
      sites.length = n → oc sites = Except.ok v → st.min_value = some m →
      ((FitManager.single_fit n oc sites st).1.last_fit = some (sites, v) ∧
       (v < m → (FitManager.single_fit n oc sites st).1.best_fit = some (sites, v) ∧
         (FitManager.single_fit n oc sites st).1.min_value = some v) ∧
       (¬ v < m → (FitManager.single_fit n oc sites st).1.best_fit = st.best_fit ∧
         (FitManager.single_fit n oc sites st).1.min_value = some m))) ∧
    (∃ b, (FitManager.sweep n outcome combos FitManager.initState).1.best_fit = some b ∧
      (FitManager.sweep n outcome combos FitManager.initState).1.min_value = some b.2 ∧
      b ∈ combos.map (fun c => (c, FitManager.okVal (outcome c))) ∧
      (∀ r ∈ combos.map (fun c => (c, FitManager.okVal (outcome c))), b.2 ≤ r.2) ∧
      (FitManager.sweep n outcome combos FitManager.initState).1.last_fit =
        (combos.map (fun c => (c, FitManager.okVal (outcome c)))).getLast? ∧
      ((∀ r ∈ combos.map (fun c => (c, FitManager.okVal (outcome c))),
          ∀ q ∈ combos.map (fun c => (c, FitManager.okVal (outcome c))),
          r ≠ q → r.2 ≠ q.2) →
        ∀ r ∈ combos.map (fun c => (c, FitManager.okVal (outcome c))),
          (∀ q ∈ combos.map (fun c => (c, FitManager.okVal (outcome c))),
            r.2 ≤ q.2) → r = b)) := by
  constructor
  · intro oc st sites v m hlen hv hm
    rw [FitManager.single_fit_ok n oc sites st v hlen hv]
    refine ⟨FitManager.track_last st (sites, v), ?_, ?_⟩
    · intro hlt
      rw [FitManager.track, hm]
      simp [hlt]
    · intro hlt
      rw [FitManager.track, hm]
      simp [hlt]
  · rw [FitManager.sweep_ok n outcome combos FitManager.initState hok]
    have hmapne : combos.map (fun c => (c, FitManager.okVal (outcome c))) ≠ [] := by
      intro h
      exact hne (List.map_eq_nil_iff.mp h)
    obtain ⟨b, hb1, hb2, hb3, hb4⟩ :=
      FitManager.foldl_track_best_init
        (combos.map (fun c => (c, FitManager.okVal (outcome c)))) hmapne
    refine ⟨b, hb1, hb2, hb3, hb4, ?_, ?_⟩
    · exact FitManager.foldl_track_last _ _ hmapne
    · intro hdist r hr hrmin
      by_contra hrb
      have h1 : b.2 ≤ r.2 := hb4 r hr
      have h2 : r.2 ≤ b.2 := hrmin b hb3
      exact hdist r hr b hb3 hrb (le_antisymm h2 h1)

/-- Witness for C6 at a concrete sweep: combinations `(1,)`, `(2,)`, `(3,)`
with costs 5, 2, 4 — the best is the strict minimum `((2,), 2)` and the
last is `((3,), 4)`. -/
def c6Outcome : List ℤ → Except FitManager.PyErr ℚ := fun s =>
  if s = [(1 : ℤ)] then Except.ok 5
  else if s = [(2 : ℤ)] then Except.ok 2
  else Except.ok 4

theorem claim6_witness :
    (∀ (oc : List ℤ → Except FitManager.PyErr ℚ) (st : FitManager.FMState)
        (sites : List ℤ) (v m : ℚ),
      sites.length = 1 → oc sites = Except.ok v → st.min_value = some m →
      ((FitManager.single_fit 1 oc sites st).1.last_fit = some (sites, v) ∧
       (v < m → (FitManager.single_fit 1 oc sites st).1.best_fit = some (sites, v) ∧
         (FitManager.single_fit 1 oc sites st).1.min_value = some v) ∧
       (¬ v < m → (FitManager.single_fit 1 oc sites st).1.best_fit = st.best_fit ∧
         (FitManager.single_fit 1 oc sites st).1.min_value = some m))) ∧
    (∃ b, (FitManager.sweep 1 c6Outcome [[1], [2], [3]]
        FitManager.initState).1.best_fit = some b ∧
      (FitManager.sweep 1 c6Outcome [[1], [2], [3]]
        FitManager.initState).1.min_value = some b.2 ∧
      b ∈ [[1], [2], [3]].map (fun c => (c, FitManager.okVal (c6Outcome c))) ∧
      (∀ r ∈ [[1], [2], [3]].map (fun c => (c, FitManager.okVal (c6Outcome c))),
        b.2 ≤ r.2) ∧
      (FitManager.sweep 1 c6Outcome [[1], [2], [3]]
        FitManager.initState).1.last_fit =
        ([[1], [2], [3]].map (fun c => (c, FitManager.okVal (c6Outcome c)))).getLast? ∧
      ((∀ r ∈ [[1], [2], [3]].map (fun c => (c, FitManager.okVal (c6Outcome c))),
          ∀ q ∈ [[1], [2], [3]].map (fun c => (c, FitManager.okVal (c6Outcome c))),
          r ≠ q → r.2 ≠ q.2) →
        ∀ r ∈ [[1], [2], [3]].map (fun c => (c, FitManager.okVal (c6Outcome c))),
          (∀ q ∈ [[1], [2], [3]].map (fun c => (c, FitManager.okVal (c6Outcome c))),
            r.2 ≤ q.2) → r = b)) :=
  claim6_best_last_tracking 1 c6Outcome [[1], [2], [3]] (by decide)
    (by
      intro c hc
      fin_cases hc <;> constructor <;> decide)

/-- Claim C9, counterexample: The claim says that when the pre-fit range
validation fails, *both* `run_fits` and `run_single_fit` still proceed to
fit (warning, not a hard stop).  At the concrete input below — one site
slot, candidate `(1,)`, a fit that would succeed with cost 1, but the data
pattern not in range — `run_fits` emits the warning and then raises
`ValueError` without fitting anything: its result table stays empty and
the error propagates to the caller. -/
theorem claim9_counterexample :
    FitManager.run_fits 1 (fun _ => Except.ok 1) false [[1]] FitManager.initState =
      ⟨FitManager.initState, some FitManager.PyErr.valueError, true⟩ ∧
    (FitManager.run_fits 1 (fun _ => Except.ok 1) false [[1]]
      FitManager.initState).state.processed = [] := by
  constructor
  · rfl
  · rfl

/-- Claim C9, amended: When the pre-fit range validation finds the data
pattern out of range, the two entry points diverge: `run_single_fit`
surfaces it as a warning only and still proceeds to fit, whereas
`run_fits` emits the warning and then raises `ValueError`, so no
combination of the sweep is fitted and the exception reaches the caller. -/
theorem claim9_amended_range_check (n : ℕ)
    (outcome : List ℤ → Except FitManager.PyErr ℚ) (args : List (List ℤ))
    (sites : List ℤ) (st : FitManager.FMState) (v : ℚ)
    (hs : sites.length = n) (ho : outcome sites = Except.ok v) :
    (FitManager.run_fits n outcome false args st =
      ⟨st, some FitManager.PyErr.valueError, true⟩) ∧
    ((FitManager.run_single_fit n outcome false sites st).warned = true ∧
     (FitManager.run_single_fit n outcome false sites st).err = none ∧
     (FitManager.run_single_fit n outcome false sites st).state.processed =
       st.processed ++ [(sites, v)]) := by
  constructor
  · rw [FitManager.run_fits, if_pos rfl]
  · rw [FitManager.run_single_fit, FitManager.single_fit_ok n outcome sites st v hs ho]
    exact ⟨rfl, rfl, FitManager.track_processed st (sites, v)⟩

theorem claim9_amended_witness :
    (FitManager.run_fits 1 (fun _ => Except.ok 3) false [[1]] FitManager.initState =
      ⟨FitManager.initState, some FitManager.PyErr.valueError, true⟩) ∧
    ((FitManager.run_single_fit 1 (fun _ => Except.ok 3) false [5]
        FitManager.initState).warned = true ∧
     (FitManager.run_single_fit 1 (fun _ => Except.ok 3) false [5]
        FitManager.initState).err = none ∧
     (FitManager.run_single_fit 1 (fun _ => Except.ok 3) false [5]
        FitManager.initState).state.processed =
       FitManager.initState.processed ++ [([5], 3)]) :=
  claim9_amended_range_check 1 (fun _ => Except.ok 3) [[1]] [5]
    FitManager.initState 3 (by decide) rfl

/-- The empty user override dictionaries of the C10 failing input. -/
def noOverride : FitManager.PKey → Option ℚ := fun _ => none

/-- The data pattern fields of the C10 failing input. -/
def c10dp : FitManager.DPattern := ⟨0, 0, 0, 1000⟩

/-- Claim C10, code bug: In the default configuration (no user-fixed and no
user-set initial values) `compute_initial_fit_values` auto-fixes
`total_cts` and `sigma`, so a successful previous fit has exactly four
free coordinates (`dx, dy, phi, f_p1` for one site) in `results['x']`.
The seeding loop of `_get_initial_values`, however, consumes one entry of
that vector for every key *not in the user-fixed dictionary* — six keys —
so it reads past the end of the previous result vector: seeding crashes
with an `IndexError` (modelled by `none`) instead of seeding each free
parameter with its own previous optimum plus `1e-5`. -/
theorem claim10_seeding_index_misalignment :
    ((FitManager.compute_initial_fit_values 1 c10dp noOverride noOverride).2 =
      [false, false, false, true, true, false]) ∧
    (FitManager.get_initial_values 1 c10dp noOverride noOverride
      (some ⟨true, [1, 2, 3, 1 / 2]⟩) true = none) := by
  constructor
  · rfl
  · rfl

/-- The raw generator of the C2 witness (one cell exactly zero, one
positive): the clamp must lift the zero cell to the floor. -/
def c2Gen : fits.GenCall → List ℚ := fun _ => [0, 7]

theorem claim2_witness :
    ((fits.chi_square (fits.make_pattern_clamped c2Gen) [3, 4] [true, false] 1 2 3
        100 [1 / 2] 0).2 =
      fits.chi2Score [3, 4]
        (fits.make_pattern_clamped c2Gen
          (fits.chi_square (fits.make_pattern_clamped c2Gen) [3, 4] [true, false] 1 2 3
            100 [1 / 2] 0).1) [true, false]) ∧
    (∀ (d s : ℚ) (b : Bool) (ds ss : List ℚ) (bs : List Bool),
      fits.chi2Score (d :: ds) (s :: ss) (b :: bs) =
        (if b then (d - s) ^ 2 / |s| else 0) + fits.chi2Score ds ss bs) ∧
    (∀ s ∈ fits.make_pattern_clamped c2Gen
        (fits.chi_square (fits.make_pattern_clamped c2Gen) [3, 4] [true, false] 1 2 3
          100 [1 / 2] 0).1,
      fits.floor_val ≤ s ∧ 0 < |s|) :=
  claim2_chi_square_guarded_score c2Gen [3, 4] [true, false] 1 2 3 100 [1 / 2] 0

/-- The generator of the C3 witness. -/
def c3Gen : fits.GenCall → List ℚ := fun _ => [1 / 2, 1 / 2]

theorem claim3_witness :
    ((fits.log_likelihood id c3Gen [3, 4] [true, true] 1 2 3 [3 / 5]
        0).1.total_events = 1) ∧
    ((fits.log_likelihood id c3Gen [3, 4] [true, true] 1 2 3 [3 / 5] 0).2 =
      -(fits.llScore id [3, 4]
          (c3Gen (fits.log_likelihood id c3Gen [3, 4] [true, true] 1 2 3
            [3 / 5] 0).1) [true, true])) ∧
    (∀ (d s : ℚ) (b : Bool) (ds ss : List ℚ) (bs : List Bool),
      fits.llScore id (d :: ds) (s :: ss) (b :: bs) =
        (if b then d * id s else 0) + fits.llScore id ds ss bs) ∧
    (((fits.maximize_likelyhood_setup witnessState).1.params fits.Key.total_cts).use = false) ∧
    (fits.Key.total_cts ∉ fits.freeKeys (fits.maximize_likelyhood_setup witnessState).1) ∧
    (∀ k : fits.Key, k ≠ fits.Key.total_cts →
      (fits.maximize_likelyhood_setup witnessState).1.params k = witnessState.params k) ∧
    ((fits.maximize_likelyhood_setup witnessState).2 =
      fits.get_p0 (fits.maximize_likelyhood_setup witnessState).1) :=
  claim3_likelihood_unit_counts_and_fixed_total id c3Gen [3, 4] [true, true] 1 2 3
    [3 / 5] 0 witnessState
